import Mathlib

/-!
Verification development for `toucan_to_messages.py`, the single source file of
this repository.  The script converts rows of the Toucan-1.5M dataset (a
`messages` JSON column and a `tools` JSON column) into Anthropic
MessagesRequest JSONL records, with optional language and tool-call-count
filters.

Shallow embedding conventions:
* JSON values are modelled by the inductive `Json`.
* `json.loads` of a column is modelled by carrying the parse outcome
  (`Option ...`) alongside the raw text where the raw text matters
  (`count_tool_calls` scans the raw string).
* The content string of a `tool_call` turn is parsed by `ast.literal_eval`
  followed by `json.loads` of the nested argument string; we embed a content
  string together with the outcome of that parse at exactly the granularity
  `parse_tool_call` inspects (`TCContent`).
* The external language classifier `fast_langdetect.detect` is an injected
  function `String → Option (String × ℚ)`; `none` models the classifier
  raising (caught inside `is_english`).  Float scores are modelled by ℚ;
  no claim below depends on float rounding.
-/

/-- A JSON value, as far as this script inspects one. -/
inductive Json where
  | str (s : String)
  | num (n : Int)
  | bool (b : Bool)
  | null
  | arr (xs : List Json)
  | obj (fields : List (String × Json))

/-- Python dict lookup `d[k]` / `d.get(k)` on a JSON object; `none` when the
value is not an object or the key is missing. -/
def dictGet (j : Json) (k : String) : Option Json :=
  match j with
  | Json.obj fields => fields.lookup k
  | _ => none

/-- Python truthiness of a JSON value (`not text` in `is_english`). -/
def pyFalsy : Json → Bool
  | Json.str s => s = ""
  | Json.num n => n = 0
  | Json.bool b => !b
  | Json.null => true
  | Json.arr xs => xs.isEmpty
  | Json.obj fields => fields.isEmpty

/-- The empty JSON object, the default tool input. -/
def emptyObj : Json := Json.obj []

/-- Outcome of `ast.literal_eval` on a `tool_call` content string, at the
granularity `parse_tool_call` inspects it:
* `unparsable`: `ast.literal_eval` raises, or the parsed value has no usable
  `name` entry, or any other exception caught by the outer `except` of
  `parse_tool_call`;
* `good name args`: a dict with string field `name`; `args` is the
  `json.loads` outcome of the `arguments` string (`none` for a
  `json.JSONDecodeError`; a missing `arguments` key defaults to the string
  of an empty object, which parses to `some emptyObj`). -/
inductive TCContent where
  | unparsable
  | good (name : String) (args : Option Json)

/-- The `content` field of a turn.  `val j` is a non-string JSON value, passed
through untouched by user/assistant/tool_response handling.  `str raw p` is a
string content: `raw` is the text itself (used by the language filter) and `p`
is its `ast.literal_eval` view (used only if a `tool_call` branch parses it). -/
inductive Content where
  | val (j : Json)
  | str (raw : String) (p : TCContent)

/-- One element of the parsed `messages` column: a dict with a `role` tag and
a `content` field. -/
structure Turn where
  role : String
  content : Content

/-- Result of `parse_tool_call`: the `name` and `input` of a tool_use block. -/
structure ParsedCall where
  name : String
  input : Json

/-- Function `parse_tool_call` on the literal_eval view of the content string:
fallback `name = "unknown", input = empty object` when the outer parse fails;
otherwise the parsed name, with the argument object defaulting to the empty
object when the nested `json.loads` fails. -/
def parse_tool_call : TCContent → ParsedCall
  | TCContent.unparsable => { name := "unknown", input := emptyObj }
  | TCContent.good name none => { name := name, input := emptyObj }
  | TCContent.good name (some args) => { name := name, input := args }

/-- Function `parse_tool_call` applied to the content value of a turn.  A non-string content
makes `ast.literal_eval` raise, which the outer `except` turns into the
fallback. -/
def parseToolCallContent : Content → ParsedCall
  | Content.val _ => { name := "unknown", input := emptyObj }
  | Content.str _ p => parse_tool_call p

/-- A content block of an output message. -/
inductive Block where
  | tool_use (id : String) (name : String) (input : Json)
  | tool_result (tool_use_id : String) (content : Content)

/-- The `id` field read off a block by `tool_uses[response_idx]["id"]` (only
ever applied to `tool_use` blocks). -/
def blockId : Block → String
  | Block.tool_use id _ _ => id
  | Block.tool_result tid _ => tid

/-- Content of an output message: either a passed-through turn content or a
list of blocks. -/
inductive OutContent where
  | plain (c : Content)
  | blocks (bs : List Block)

/-- One output message of the MessagesRequest. -/
structure OutMsg where
  role : String
  content : OutContent

/-- Decimal digit characters of a natural number (Python `str(n)` for the
`:04d` format). -/
def natDigits (n : Nat) : List Char :=
  if h : n < 10 then [Char.ofNat (48 + n)]
  else natDigits (n / 10) ++ [Char.ofNat (48 + n % 10)]
decreasing_by
  exact Nat.div_lt_self (by omega) (by omega)

/-- Python `f-string` formatting with `:04d`: decimal digits left-padded with
zeros to width at least 4. -/
def pad4 (n : Nat) : String :=
  String.mk (List.replicate (4 - (natDigits n).length) '0' ++ natDigits n)

/-- The synthetic tool identifier `toolu_` followed by the zero-padded
counter value. -/
def toolId (n : Nat) : String := "toolu_" ++ pad4 n

/-- The inner `while` loops of `convert_messages`: split off the maximal
prefix of turns whose role equals `r`, returning (prefix, remainder). -/
def spanRole (r : String) : List Turn → List Turn × List Turn
  | [] => ([], [])
  | m :: ms =>
    if m.role = r then
      let s := spanRole r ms
      (m :: s.1, s.2)
    else ([], m :: ms)

theorem spanRole_snd_length_le (r : String) (l : List Turn) :
    (spanRole r l).2.length ≤ l.length := by
  induction l with
  | nil => simp [spanRole]
  | cons m ms ih =>
    by_cases h : m.role = r
    · simpa [spanRole, h] using Nat.le_succ_of_le ih
    · simp [spanRole, h]

/-- The tool_use blocks built from a run of consecutive `tool_call` turns,
with the counter starting at `c`: the k-th call (0-based) is assigned
`toolId (c + k + 1)`, mirroring the pre-increment of `tool_call_id_counter`. -/
def mkToolUses (c : Nat) (calls : List Turn) : List Block :=
  calls.enum.map (fun km =>
    let p := parseToolCallContent km.2.content
    Block.tool_use (toolId (c + km.1 + 1)) p.name p.input)

/-- The tool_result blocks built from the run of consecutive `tool_response`
turns that follows, with `c'` the counter value after the calls: response
index `r` pairs with `tool_uses[r]` when `r < len(tool_uses)` and otherwise
receives the freshly synthesized id `toolId (c' + r + 1)`. -/
def mkToolResults (c' : Nat) (toolUses : List Block) (resps : List Turn) :
    List Block :=
  resps.enum.map (fun rm =>
    let tid :=
      match toolUses[rm.1]? with
      | some b => blockId b
      | none => toolId (c' + rm.1 + 1)
    Block.tool_result tid rm.2.content)

/-- The scan loop of `convert_messages` with the running
`tool_call_id_counter` value `c`.  user/assistant turns pass through; a
maximal run of `tool_call` turns becomes one assistant message of tool_use
blocks, immediately followed (when non-empty) by one user message collecting
the maximal run of `tool_response` turns; unknown roles are skipped. -/
def convertAux (c : Nat) (msgs : List Turn) : List OutMsg :=
  match msgs with
  | [] => []
  | msg :: rest =>
    if msg.role = "user" then
      { role := "user", content := OutContent.plain msg.content } ::
        convertAux c rest
    else if msg.role = "assistant" then
      { role := "assistant", content := OutContent.plain msg.content } ::
        convertAux c rest
    else if msg.role = "tool_call" then
      let s1 := spanRole "tool_call" rest
      let calls := msg :: s1.1
      let toolUses := mkToolUses c calls
      let c' := c + calls.length
      let s2 := spanRole "tool_response" s1.2
      let toolResults := mkToolResults c' toolUses s2.1
      { role := "assistant", content := OutContent.blocks toolUses } ::
        (if toolResults.isEmpty then convertAux c' s2.2
         else { role := "user", content := OutContent.blocks toolResults } ::
           convertAux c' s2.2)
    else convertAux c rest
termination_by msgs.length
decreasing_by
  all_goals simp only [List.length_cons]
  all_goals
    first
    | omega
    | exact Nat.lt_succ_of_le
        (Nat.le_trans (spanRole_snd_length_le _ _) (spanRole_snd_length_le _ _))

/-- Function `convert_messages`: `json.loads` of the messages column (its outcome is
the argument; `none` means the load raises, so the row errors), then the scan
with the per-row counter starting at 0. -/
def convert_messages (messagesParse : Option (List Turn)) :
    Option (List OutMsg) :=
  match messagesParse with
  | none => none
  | some msgs => some (convertAux 0 msgs)

/-- One non-overlapping, left-to-right occurrence count of the pattern
`s0 :: srest` in a character list (Python `str.count`). -/
def countOccsAux (s0 : Char) (srest : List Char) (l : List Char) : Nat :=
  match l with
  | [] => 0
  | c :: rest =>
    if (s0 :: srest).isPrefixOf (c :: rest) then
      1 + countOccsAux s0 srest (rest.drop srest.length)
    else countOccsAux s0 srest rest
termination_by l.length
decreasing_by
  all_goals simp only [List.length_cons]
  · have h := List.length_drop srest.length rest
    omega
  · omega

/-- The characters of the role marker after its opening quote character. -/
def toolCallMarkerTail : List Char := "role\": \"tool_call\"".data

/-- Function `count_tool_calls`: count occurrences of the `tool_call` role marker by a
substring scan of the raw messages encoding, without parsing it. -/
def count_tool_calls (messages_json : String) : Nat :=
  countOccsAux '"' toolCallMarkerTail messages_json.data

/-- Python `str.strip`: drop whitespace characters from both ends of the
text (whitespace per `Char.isWhitespace`). -/
def pyStrip (text : String) : String :=
  String.mk
    (((text.data.dropWhile Char.isWhitespace).reverse.dropWhile
      Char.isWhitespace).reverse)

/-- Function `is_english` on a string text: reject empty or under-10-character texts
(after trimming) outright, otherwise ask the injected classifier `detect`
(`none` models the classifier raising, caught and turned into a reject) and
require the top label `en` with a score at least `min_confidence`. -/
def is_english (detect : String → Option (String × ℚ)) (text : String)
    (min_confidence : ℚ) : Bool :=
  if text = "" || (pyStrip text).length < 10 then false
  else
    match detect text with
    | none => false
    | some lr => lr.1 == "en" && decide (min_confidence ≤ lr.2)

/-- Function `is_english` applied to a first-user-turn content value.  A falsy
non-string value fails the Python `not text` test and is rejected; a truthy
non-string makes `len(text.strip())` raise an error that nothing catches, so
the whole run crashes (`none`). -/
def isEnglishContent (detect : String → Option (String × ℚ)) (c : Content)
    (min_confidence : ℚ) : Option Bool :=
  match c with
  | Content.str raw _ => some (is_english detect raw min_confidence)
  | Content.val j => if pyFalsy j then some false else none

/-- The generator expression selecting the first turn with role `user`; its
content defaults to the empty string when no user turn exists. -/
def firstUserContent (msgs : List Turn) : Content :=
  match msgs.find? (fun m => m.role == "user") with
  | some m => m.content
  | none => Content.str "" TCContent.unparsable

/-- One entry of the output `tools` list: name, description and input schema
values taken from the function declaration. -/
structure ToolSpec where
  name : Json
  description : Json
  input_schema : Json

/-- The default `input_schema` used when the declaration has no
`parameters` field. -/
def defaultSchema : Json := Json.obj [("type", Json.str "object")]

/-- One iteration of the `convert_tools` loop.  `ok none` means the entry is
skipped (its `type` tag is missing or not the string `function`); `error`
means Python raises (indexing a non-dict entry, or a function-tagged entry
without a `function` dict carrying a `name`), failing the whole row. -/
def convertTool (tool : Json) : Except Unit (Option ToolSpec) :=
  match tool with
  | Json.obj _ =>
    match dictGet tool "type" with
    | some (Json.str tag) =>
      if tag = "function" then
        match dictGet tool "function" with
        | some func =>
          match dictGet func "name" with
          | some nm =>
            Except.ok (some
              { name := nm
                description := (dictGet func "description").getD (Json.str "")
                input_schema := (dictGet func "parameters").getD defaultSchema })
          | none => Except.error ()
        | none => Except.error ()
      else Except.ok none
    | _ => Except.ok none
  | _ => Except.error ()

/-- The `for tool in tools` loop of `convert_tools`, appending the converted
specs in order and propagating any exception. -/
def convertToolsList : List Json → Except Unit (List ToolSpec)
  | [] => Except.ok []
  | tool :: rest =>
    match convertTool tool with
    | Except.error e => Except.error e
    | Except.ok none => convertToolsList rest
    | Except.ok (some spec) =>
      match convertToolsList rest with
      | Except.error e => Except.error e
      | Except.ok specs => Except.ok (spec :: specs)

/-- Function `convert_tools`: `json.loads` of the tools column (`none` = the load
raises) followed by the conversion loop. -/
def convert_tools (toolsParse : Option (List Json)) :
    Except Unit (List ToolSpec) :=
  match toolsParse with
  | none => Except.error ()
  | some tools => convertToolsList tools

/-- The output record of one row.  `tools = none` models the combination of
`tools if tools else None` in `convert_row` with the removal of `None` values
in `main`: the serialized record then has no `tools` key. -/
structure OutRecord where
  model : String
  messages : List OutMsg
  tools : Option (List ToolSpec)
  max_tokens : Nat

/-- Function `convert_row`: convert the messages column, convert the tools column,
and attach the fixed request metadata; `none` when either conversion raises. -/
def convert_row (messagesParse : Option (List Turn))
    (toolsParse : Option (List Json)) : Option OutRecord :=
  match convert_messages messagesParse with
  | none => none
  | some messages =>
    match convert_tools toolsParse with
    | Except.error _ => none
    | Except.ok tools =>
      some { model := "rwkv", messages := messages
             tools := if tools.isEmpty then none else some tools
             max_tokens := 4096 }

/-- The key list of the serialized JSON line for a record, after `main`
removes `None` values. -/
def serializedKeys (r : OutRecord) : List String :=
  ["model", "messages"] ++ (if r.tools.isSome then ["tools"] else []) ++
    ["max_tokens"]

/-- One input row as the driver loop sees it: the raw messages text (scanned
by `count_tool_calls`), the `json.loads` outcome of the messages column
(`none` = malformed JSON), and the `json.loads` outcome of the tools column. -/
structure Row where
  messagesRaw : String
  messagesParse : Option (List Turn)
  toolsParse : Option (List Json)

/-- The configuration of one run: `--max-tool-calls`, `--no-lang-filter`,
`--lang-confidence`, and the injected language classifier. -/
structure Config where
  max_tool_calls : Option Nat
  no_lang_filter : Bool
  lang_confidence : ℚ
  detect : String → Option (String × ℚ)

/-- What processing one row does: emit a record, skip under one of the two
filters, count an error, or crash the whole run with an uncaught exception
(only possible from a truthy non-string first user content). -/
inductive RowOutcome where
  | emitted (record : OutRecord)
  | filteredToolCalls
  | filteredLang
  | errored
  | crashed

/-- The conversion step of the driver loop: the `try` around `convert_row`
turns any exception into an error outcome. -/
def afterFilters (row : Row) : RowOutcome :=
  match convert_row row.messagesParse row.toolsParse with
  | none => RowOutcome.errored
  | some record => RowOutcome.emitted record

/-- The tool-call-count filter test of the driver loop: only active when
`--max-tool-calls` is given, and rejecting exactly when the substring count
strictly exceeds the maximum. -/
def toolCallFilterRejects (cfg : Config) (row : Row) : Bool :=
  match cfg.max_tool_calls with
  | some m => decide (m < count_tool_calls row.messagesRaw)
  | none => false

/-- The body of the driver loop for one row: tool-call-count filter first,
then (unless disabled) the language filter, whose surrounding `try` also
catches a malformed messages column as a language rejection, then the
conversion step. -/
def process_row (cfg : Config) (row : Row) : RowOutcome :=
  if toolCallFilterRejects cfg row then RowOutcome.filteredToolCalls
  else if cfg.no_lang_filter then afterFilters row
  else
    match row.messagesParse with
    | none => RowOutcome.filteredLang
    | some msgs =>
      match isEnglishContent cfg.detect (firstUserContent msgs)
          cfg.lang_confidence with
      | none => RowOutcome.crashed
      | some false => RowOutcome.filteredLang
      | some true => afterFilters row

/-- The counters of the driver loop together with the lines written to
standard output so far. -/
structure LoopState where
  count : Nat
  errors : Nat
  filtered_lang : Nat
  filtered_tool_calls : Nat
  processed : Nat
  output : List OutRecord

/-- The all-zero state before the first row. -/
def initState : LoopState :=
  { count := 0, errors := 0, filtered_lang := 0, filtered_tool_calls := 0
    processed := 0, output := [] }

/-- One iteration of the driver loop: bump `processed`, then update the
state according to the outcome of the row; `none` models an uncaught exception
aborting the run. -/
def step_row (cfg : Config) (st : LoopState) (row : Row) : Option LoopState :=
  let st1 := { st with processed := st.processed + 1 }
  match process_row cfg row with
  | RowOutcome.filteredToolCalls =>
    some { st1 with filtered_tool_calls := st1.filtered_tool_calls + 1 }
  | RowOutcome.filteredLang =>
    some { st1 with filtered_lang := st1.filtered_lang + 1 }
  | RowOutcome.errored => some { st1 with errors := st1.errors + 1 }
  | RowOutcome.emitted record =>
    some { st1 with count := st1.count + 1, output := st1.output ++ [record] }
  | RowOutcome.crashed => none

/-- The whole driver loop over a list of rows. -/
def run_rows (cfg : Config) (st : LoopState) : List Row → Option LoopState
  | [] => some st
  | row :: rest =>
    match step_row cfg st row with
    | none => none
    | some st1 => run_rows cfg st1 rest

/-- The number of turns with a given role. -/
def countRole (r : String) (msgs : List Turn) : Nat :=
  (msgs.filter (fun m => m.role == r)).length

/-- The ids of the `tool_use` blocks of a block list, in order. -/
def blocksToolUseIds (bs : List Block) : List String :=
  bs.filterMap (fun b =>
    match b with
    | Block.tool_use id _ _ => some id
    | Block.tool_result _ _ => none)

/-- The `tool_use_id` values of the `tool_result` blocks of a block list. -/
def blocksResultIds (bs : List Block) : List String :=
  bs.filterMap (fun b =>
    match b with
    | Block.tool_use _ _ _ => none
    | Block.tool_result tid _ => some tid)

/-- The blocks carried by an output message (empty for plain content). -/
def msgBlocks (m : OutMsg) : List Block :=
  match m.content with
  | OutContent.blocks bs => bs
  | OutContent.plain _ => []

/-- All `tool_use` ids of an output message list, in order of assignment. -/
def toolUseIds (out : List OutMsg) : List String :=
  blocksToolUseIds (out.map msgBlocks).flatten

/-- All `tool_result` ids of an output message list, in order. -/
def resultIds (out : List OutMsg) : List String :=
  blocksResultIds (out.map msgBlocks).flatten

theorem spanRole_eq_append (r : String) (l : List Turn) :
    (spanRole r l).1 ++ (spanRole r l).2 = l := by
  induction l with
  | nil => rfl
  | cons m ms ih =>
    by_cases h : m.role = r
    · simp [spanRole, h, ih]
    · simp [spanRole, h]

theorem spanRole_fst_all (r : String) (l : List Turn) :
    ∀ m ∈ (spanRole r l).1, m.role = r := by
  induction l with
  | nil => simp [spanRole]
  | cons m ms ih =>
    by_cases h : m.role = r
    · intro x hx
      simp only [spanRole, if_pos h, List.mem_cons] at hx
      rcases hx with rfl | hx
      · exact h
      · exact ih x hx
    · simp [spanRole, h]

theorem spanRole_snd_head (r : String) (l : List Turn) :
    ∀ m, (spanRole r l).2.head? = some m → m.role ≠ r := by
  induction l with
  | nil => simp [spanRole]
  | cons m ms ih =>
    by_cases h : m.role = r
    · simpa [spanRole, h] using ih
    · intro x hx
      simp only [spanRole, if_neg h, List.head?_cons, Option.some.injEq] at hx
      subst hx
      exact h

theorem spanRole_append_of_all (r : String) (a rest : List Turn)
    (ha : ∀ m ∈ a, m.role = r)
    (hrest : ∀ m, rest.head? = some m → m.role ≠ r) :
    spanRole r (a ++ rest) = (a, rest) := by
  induction a with
  | nil =>
    cases rest with
    | nil => rfl
    | cons m ms =>
      have hm : m.role ≠ r := hrest m rfl
      simp [spanRole, hm]
  | cons m ms ih =>
    have hm : m.role = r := ha m (List.mem_cons_self m ms)
    have h2 := ih (fun x hx => ha x (List.mem_cons_of_mem m hx))
    simp [spanRole, hm, h2]

theorem toolUseIds_cons (m : OutMsg) (out : List OutMsg) :
    toolUseIds (m :: out) =
      blocksToolUseIds (msgBlocks m) ++ toolUseIds out := by
  simp [toolUseIds, blocksToolUseIds, List.filterMap_append]

theorem resultIds_cons (m : OutMsg) (out : List OutMsg) :
    resultIds (m :: out) = blocksResultIds (msgBlocks m) ++ resultIds out := by
  simp [resultIds, blocksResultIds, List.filterMap_append]

theorem enum_map_fst_fun {α β : Type} (l : List α) (g : Nat → β) :
    l.enum.map (fun km => g km.1) = (List.range l.length).map g := by
  rw [List.enum_eq_zip_range]
  have h1 : (fun km : Nat × α => g km.1) = g ∘ Prod.fst := rfl
  rw [h1, ← List.map_map, List.map_fst_zip]
  simp

theorem enum_map_comp_fst {α β : Type} (l : List α) (g : Nat → β) :
    l.enum.map (g ∘ Prod.fst) = (List.range l.length).map g := by
  rw [List.enum_eq_zip_range, ← List.map_map, List.map_fst_zip]
  simp

theorem blocksToolUseIds_mkToolUses (c : Nat) (calls : List Turn) :
    blocksToolUseIds (mkToolUses c calls) =
      (List.range calls.length).map (fun k => toolId (c + k + 1)) := by
  unfold blocksToolUseIds mkToolUses
  rw [List.filterMap_map]
  have h1 : ((fun b =>
        match b with
        | Block.tool_use id _ _ => some id
        | Block.tool_result _ _ => none) ∘
      (fun km : Nat × Turn =>
        let p := parseToolCallContent km.2.content
        Block.tool_use (toolId (c + km.1 + 1)) p.name p.input)) =
      some ∘ (fun km : Nat × Turn => toolId (c + km.1 + 1)) := by
    funext km
    rfl
  rw [h1, List.filterMap_eq_map]
  exact enum_map_fst_fun calls (fun k => toolId (c + k + 1))

theorem blocksResultIds_mkToolUses (c : Nat) (calls : List Turn) :
    blocksResultIds (mkToolUses c calls) = [] := by
  unfold blocksResultIds mkToolUses
  rw [List.filterMap_map, List.filterMap_eq_nil_iff]
  intro km _
  rfl

theorem blocksToolUseIds_mkToolResults (c' : Nat) (tus : List Block)
    (resps : List Turn) :
    blocksToolUseIds (mkToolResults c' tus resps) = [] := by
  unfold blocksToolUseIds mkToolResults
  rw [List.filterMap_map, List.filterMap_eq_nil_iff]
  intro rm _
  rfl

theorem mkToolUses_getElem? (c : Nat) (calls : List Turn) (r : Nat) :
    (mkToolUses c calls)[r]? =
      (calls[r]?).map (fun m =>
        let p := parseToolCallContent m.content
        Block.tool_use (toolId (c + r + 1)) p.name p.input) := by
  unfold mkToolUses
  rw [List.getElem?_map, List.getElem?_enum]
  cases calls[r]? with
  | none => rfl
  | some m => rfl

theorem blocksResultIds_mkToolResults (c c' : Nat) (calls resps : List Turn) :
    blocksResultIds (mkToolResults c' (mkToolUses c calls) resps) =
      (List.range resps.length).map (fun r =>
        if r < calls.length then toolId (c + r + 1) else toolId (c' + r + 1)) := by
  unfold blocksResultIds mkToolResults
  rw [List.filterMap_map]
  have h1 : ((fun b =>
        match b with
        | Block.tool_use _ _ _ => none
        | Block.tool_result tid _ => some tid) ∘
      (fun rm : Nat × Turn =>
        let tid :=
          match (mkToolUses c calls)[rm.1]? with
          | some b => blockId b
          | none => toolId (c' + rm.1 + 1)
        Block.tool_result tid rm.2.content)) =
      some ∘ (fun rm : Nat × Turn =>
        match (mkToolUses c calls)[rm.1]? with
        | some b => blockId b
        | none => toolId (c' + rm.1 + 1)) := by
    funext rm
    rfl
  rw [h1, List.filterMap_eq_map]
  have h2 : (fun rm : Nat × Turn =>
      match (mkToolUses c calls)[rm.1]? with
      | some b => blockId b
      | none => toolId (c' + rm.1 + 1)) =
      (fun r =>
        match (mkToolUses c calls)[r]? with
        | some b => blockId b
        | none => toolId (c' + r + 1)) ∘ Prod.fst := rfl
  rw [h2, enum_map_comp_fst]
  apply List.map_congr_left
  intro r _
  rw [mkToolUses_getElem? c calls r]
  by_cases hr : r < calls.length
  · rw [List.getElem?_eq_getElem hr]
    simp [blockId, hr]
  · rw [List.getElem?_eq_none (by omega)]
    simp [hr]

theorem mkToolResults_isEmpty (c' : Nat) (tus : List Block)
    (resps : List Turn) :
    (mkToolResults c' tus resps).isEmpty = resps.isEmpty := by
  cases resps with
  | nil => rfl
  | cons m ms => simp [mkToolResults, List.enum_cons]

/-- Processing one grouped run: a non-empty run of `tool_call` turns, then
the following run of `tool_response` turns, then a remainder opening with
neither of those roles, produce one assistant message of tool_use blocks
and, exactly when responses exist, one user message of tool_result blocks,
after which the scan continues with the counter advanced by the number of
calls. -/
theorem convertAux_group (c : Nat) (mc : Turn) (ctail resps rest : List Turn)
    (hmc : mc.role = "tool_call")
    (hct : ∀ m ∈ ctail, m.role = "tool_call")
    (hresps : ∀ m ∈ resps, m.role = "tool_response")
    (hrest_tr : ∀ m, rest.head? = some m → m.role ≠ "tool_response")
    (hrest_tc : resps = [] → ∀ m, rest.head? = some m → m.role ≠ "tool_call") :
    convertAux c (mc :: (ctail ++ (resps ++ rest))) =
      { role := "assistant",
        content := OutContent.blocks (mkToolUses c (mc :: ctail)) } ::
      (if resps.isEmpty then convertAux (c + (mc :: ctail).length) rest
       else
         { role := "user",
           content := OutContent.blocks (mkToolResults
             (c + (mc :: ctail).length) (mkToolUses c (mc :: ctail)) resps) } ::
         convertAux (c + (mc :: ctail).length) rest) := by
  have hntc : ∀ m, (resps ++ rest).head? = some m → m.role ≠ "tool_call" := by
    intro m hm
    cases resps with
    | nil => exact hrest_tc rfl m (by simpa using hm)
    | cons a as =>
      have hma : a = m := by
        simpa using hm
      have hrole : m.role = "tool_response" :=
        hma ▸ hresps a (List.mem_cons_self a as)
      rw [hrole]
      decide
  have hspan1 : spanRole "tool_call" (ctail ++ (resps ++ rest)) =
      (ctail, resps ++ rest) :=
    spanRole_append_of_all _ _ _ hct hntc
  have hspan2 : spanRole "tool_response" (resps ++ rest) = (resps, rest) :=
    spanRole_append_of_all _ _ _ hresps hrest_tr
  rw [convertAux]
  simp only [hmc]
  rw [if_neg (by decide : ¬("tool_call" = "user")),
    if_neg (by decide : ¬("tool_call" = "assistant")), if_pos trivial]
  rw [hspan1, hspan2, mkToolResults_isEmpty]


theorem countRole_nil (r : String) : countRole r [] = 0 := rfl

theorem countRole_cons_of_eq (r : String) (m : Turn) (ms : List Turn)
    (h : m.role = r) : countRole r (m :: ms) = countRole r ms + 1 := by
  simp [countRole, List.filter_cons, h]

theorem countRole_cons_of_ne (r : String) (m : Turn) (ms : List Turn)
    (h : m.role ≠ r) : countRole r (m :: ms) = countRole r ms := by
  have hb : (m.role == r) = false := beq_eq_false_iff_ne.mpr h
  simp [countRole, List.filter_cons, hb]

theorem countRole_append (r : String) (a b : List Turn) :
    countRole r (a ++ b) = countRole r a + countRole r b := by
  simp [countRole, List.filter_append]

theorem countRole_eq_length (r : String) (a : List Turn)
    (h : ∀ m ∈ a, m.role = r) : countRole r a = a.length := by
  unfold countRole
  rw [List.filter_eq_self.mpr]
  intro m hm
  exact beq_iff_eq.mpr (h m hm)

theorem countRole_eq_zero (r : String) (a : List Turn)
    (h : ∀ m ∈ a, m.role ≠ r) : countRole r a = 0 := by
  unfold countRole
  rw [List.length_eq_zero, List.filter_eq_nil_iff]
  intro m hm
  simp only [beq_iff_eq]
  exact h m hm

theorem msgBlocks_blocks (r : String) (bs : List Block) :
    msgBlocks { role := r, content := OutContent.blocks bs } = bs := rfl

theorem msgBlocks_plain (r : String) (ct : Content) :
    msgBlocks { role := r, content := OutContent.plain ct } = [] := rfl

theorem blocksToolUseIds_nil : blocksToolUseIds [] = [] := rfl

theorem toolUseIds_nil : toolUseIds [] = [] := rfl

theorem resultIds_nil : resultIds [] = [] := rfl

theorem convertAux_tool_call_eq (c : Nat) (m : Turn) (ms : List Turn)
    (hu : m.role ≠ "user") (ha : m.role ≠ "assistant")
    (htc : m.role = "tool_call") :
    convertAux c (m :: ms) =
      { role := "assistant", content :=
          OutContent.blocks (mkToolUses c (m :: (spanRole "tool_call" ms).1)) } ::
      (if (mkToolResults (c + (m :: (spanRole "tool_call" ms).1).length)
            (mkToolUses c (m :: (spanRole "tool_call" ms).1))
            (spanRole "tool_response" (spanRole "tool_call" ms).2).1).isEmpty
       then convertAux (c + (m :: (spanRole "tool_call" ms).1).length)
              (spanRole "tool_response" (spanRole "tool_call" ms).2).2
       else { role := "user", content := OutContent.blocks (mkToolResults
              (c + (m :: (spanRole "tool_call" ms).1).length)
              (mkToolUses c (m :: (spanRole "tool_call" ms).1))
              (spanRole "tool_response" (spanRole "tool_call" ms).2).1) } ::
            convertAux (c + (m :: (spanRole "tool_call" ms).1).length)
              (spanRole "tool_response" (spanRole "tool_call" ms).2).2) := by
  rw [convertAux, if_neg hu, if_neg ha, if_pos htc]

theorem toolUseIds_convertAux_aux :
    ∀ (n : Nat) (c : Nat) (msgs : List Turn), msgs.length ≤ n →
      toolUseIds (convertAux c msgs) =
        (List.range (countRole "tool_call" msgs)).map
          (fun k => toolId (c + k + 1)) := by
  intro n
  induction n with
  | zero =>
    intro c msgs hlen
    have hnil : msgs = [] := List.length_eq_zero.mp (Nat.le_zero.mp hlen)
    subst hnil
    simp [convertAux, toolUseIds_nil, countRole_nil]
  | succ n ihn =>
    intro c msgs hlen
    match msgs with
    | [] => simp [convertAux, toolUseIds_nil, countRole_nil]
    | m :: ms =>
      simp only [List.length_cons] at hlen
      by_cases hu : m.role = "user"
      · rw [convertAux, if_pos hu, toolUseIds_cons,
          countRole_cons_of_ne "tool_call" m ms (by rw [hu]; decide),
          ihn c ms (by omega), msgBlocks_plain, blocksToolUseIds_nil,
          List.nil_append]
      · by_cases ha : m.role = "assistant"
        · rw [convertAux, if_neg hu, if_pos ha, toolUseIds_cons,
            countRole_cons_of_ne "tool_call" m ms (by rw [ha]; decide),
            ihn c ms (by omega), msgBlocks_plain, blocksToolUseIds_nil,
            List.nil_append]
        · by_cases htc : m.role = "tool_call"
          · rw [convertAux_tool_call_eq c m ms hu ha htc]
            have hms := spanRole_eq_append "tool_call" ms
            have hs12 :=
              spanRole_eq_append "tool_response" (spanRole "tool_call" ms).2
            have hlen1 : (spanRole "tool_call" ms).1.length +
                (spanRole "tool_call" ms).2.length = ms.length := by
              rw [← List.length_append, hms]
            have hlen2 :
                (spanRole "tool_response" (spanRole "tool_call" ms).2).1.length +
                (spanRole "tool_response" (spanRole "tool_call" ms).2).2.length =
                (spanRole "tool_call" ms).2.length := by
              rw [← List.length_append, hs12]
            have hc1 := congrArg (countRole "tool_call") hms
            rw [countRole_append] at hc1
            have hc2 := congrArg (countRole "tool_call") hs12
            rw [countRole_append] at hc2
            have hc3 := countRole_eq_length "tool_call" _
              (spanRole_fst_all "tool_call" ms)
            have hc4 := countRole_eq_zero "tool_call" _ (fun x hx => by
              have hx2 := spanRole_fst_all "tool_response"
                (spanRole "tool_call" ms).2 x hx
              rw [hx2]
              decide)
            have hcount : countRole "tool_call" (m :: ms) =
                ((spanRole "tool_call" ms).1.length + 1) +
                countRole "tool_call"
                  (spanRole "tool_response" (spanRole "tool_call" ms).2).2 := by
              rw [countRole_cons_of_eq "tool_call" m ms htc]
              omega
            have harith : ((fun k => toolId (c + k + 1)) ∘
                fun x => (spanRole "tool_call" ms).1.length + 1 + x) =
                fun k => toolId (c + (m :: (spanRole "tool_call" ms).1).length +
                  k + 1) := by
              funext x
              show toolId (c + ((spanRole "tool_call" ms).1.length + 1 + x) + 1) = _
              have he : c + ((spanRole "tool_call" ms).1.length + 1 + x) + 1 =
                  c + (m :: (spanRole "tool_call" ms).1).length + x + 1 := by
                simp only [List.length_cons]
                omega
              rw [he]
            have hih := ihn (c + (m :: (spanRole "tool_call" ms).1).length)
              (spanRole "tool_response" (spanRole "tool_call" ms).2).2
              (by omega)
            by_cases hemp : (mkToolResults
                (c + (m :: (spanRole "tool_call" ms).1).length)
                (mkToolUses c (m :: (spanRole "tool_call" ms).1))
                (spanRole "tool_response" (spanRole "tool_call" ms).2).1).isEmpty
            · rw [if_pos hemp, toolUseIds_cons, msgBlocks_blocks,
                blocksToolUseIds_mkToolUses, hih, hcount, List.range_add,
                List.map_append, List.map_map, harith, List.length_cons]
            · rw [if_neg hemp, toolUseIds_cons, msgBlocks_blocks,
                toolUseIds_cons, msgBlocks_blocks,
                blocksToolUseIds_mkToolResults, List.nil_append, blocksToolUseIds_mkToolUses, hih, hcount,
                List.range_add, List.map_append, List.map_map, harith,
                List.length_cons]
          · rw [convertAux, if_neg hu, if_neg ha, if_neg htc,
              countRole_cons_of_ne "tool_call" m ms htc, ihn c ms (by omega)]

/-- The tool_use identifiers assigned while scanning a row with the counter
starting at `c` are exactly `toolId (c+1), toolId (c+2), ...`, one per
`tool_call` turn, in order: the counter is bumped exactly once per consumed
`tool_call` turn and never for any other turn (in particular never for a
`tool_response` turn). -/
theorem toolUseIds_convertAux (c : Nat) (msgs : List Turn) :
    toolUseIds (convertAux c msgs) =
      (List.range (countRole "tool_call" msgs)).map
        (fun k => toolId (c + k + 1)) :=
  toolUseIds_convertAux_aux msgs.length c msgs (Nat.le_refl _)

theorem convertAux_nil (c : Nat) : convertAux c [] = [] := by
  rw [convertAux]

/-- A sample `tool_call` turn whose content string parses cleanly. -/
def tcTurn : Turn :=
  { role := "tool_call",
    content := Content.str "dict" (TCContent.good "get_weather" (some emptyObj)) }

/-- A sample `tool_response` turn. -/
def trTurn : Turn :=
  { role := "tool_response", content := Content.str "sunny" TCContent.unparsable }

/-- A sample `user` turn with a long enough English text. -/
def usTurn : Turn :=
  { role := "user",
    content := Content.str "What is the weather like today?" TCContent.unparsable }

/-- A sample `assistant` turn. -/
def asTurn : Turn :=
  { role := "assistant",
    content := Content.str "Let me check that for you." TCContent.unparsable }

theorem toolId_eval_1 : toolId 1 = "toolu_0001" := by
  simp [toolId, pad4, natDigits]

theorem toolId_eval_2 : toolId 2 = "toolu_0002" := by
  simp [toolId, pad4, natDigits]

theorem toolId_eval_3 : toolId 3 = "toolu_0003" := by
  simp [toolId, pad4, natDigits]

theorem toolId_eval_5 : toolId 5 = "toolu_0005" := by
  simp [toolId, pad4, natDigits]

/-- Worked example: 2 tool_call turns followed by 3 tool_response turns.
The first two results pair with the calls, the surplus third result gets
`toolu_0005` (counter 2 + response index 2 + 1), not `toolu_0004`. -/
theorem rowA_resultIds :
    resultIds (convertAux 0 [tcTurn, tcTurn, trTurn, trTurn, trTurn]) =
      ["toolu_0001", "toolu_0002", "toolu_0005"] := by
  have hrow : ([tcTurn, tcTurn, trTurn, trTurn, trTurn] : List Turn) =
      tcTurn :: ([tcTurn] ++ ([trTurn, trTurn, trTurn] ++ [])) := rfl
  rw [hrow, convertAux_group 0 tcTurn [tcTurn] [trTurn, trTurn, trTurn] []
    (by decide) (by decide) (by decide) (by intro m hm; simp at hm)
    (by intro h; simp at h)]
  rw [if_neg (by decide), resultIds_cons, resultIds_cons, convertAux_nil]
  rw [msgBlocks_blocks, msgBlocks_blocks, blocksResultIds_mkToolUses,
    blocksResultIds_mkToolResults]
  rw [resultIds_nil]
  simp only [List.length_cons, List.length_nil]
  norm_num [List.range_succ, toolId_eval_1, toolId_eval_2, toolId_eval_5]

/-- Row with a surplus response (synthesizing `toolu_0003`) followed by two
more tool_call turns: the ids of the output. -/
theorem rowB_ids :
    toolUseIds (convertAux 0 [tcTurn, trTurn, trTurn, tcTurn, tcTurn]) =
      ["toolu_0001", "toolu_0002", "toolu_0003"] ∧
    resultIds (convertAux 0 [tcTurn, trTurn, trTurn, tcTurn, tcTurn]) =
      ["toolu_0001", "toolu_0003"] := by
  have hrow : ([tcTurn, trTurn, trTurn, tcTurn, tcTurn] : List Turn) =
      tcTurn :: ([] ++ ([trTurn, trTurn] ++ [tcTurn, tcTurn])) := rfl
  rw [hrow, convertAux_group 0 tcTurn [] [trTurn, trTurn] [tcTurn, tcTurn]
    (by decide) (by intro m hm; simp at hm) (by decide)
    (by intro m hm; simp at hm; subst hm; decide)
    (by intro h; simp at h)]
  have hrow2 : ([tcTurn, tcTurn] : List Turn) =
      tcTurn :: ([tcTurn] ++ ([] ++ [])) := rfl
  rw [if_neg (by decide), hrow2, convertAux_group _ tcTurn [tcTurn] [] []
    (by decide) (by decide) (by intro m hm; simp at hm)
    (by intro m hm; simp at hm) (by intro h m hm; simp at hm)]
  rw [if_pos (by decide), convertAux_nil]
  constructor
  · rw [toolUseIds_cons, toolUseIds_cons, toolUseIds_cons, toolUseIds_nil,
      msgBlocks_blocks, msgBlocks_blocks, msgBlocks_blocks,
      blocksToolUseIds_mkToolResults, blocksToolUseIds_mkToolUses,
      blocksToolUseIds_mkToolUses]
    simp only [List.length_cons, List.length_nil]
    norm_num [List.range_succ, toolId_eval_1, toolId_eval_2, toolId_eval_3]
  · rw [resultIds_cons, resultIds_cons, resultIds_cons, resultIds_nil,
      msgBlocks_blocks, msgBlocks_blocks, msgBlocks_blocks,
      blocksResultIds_mkToolUses, blocksResultIds_mkToolUses,
      blocksResultIds_mkToolResults]
    simp only [List.length_cons, List.length_nil]
    norm_num [List.range_succ, toolId_eval_1, toolId_eval_3]

/-- Row with a surplus response followed by only one later tool_call turn:
the synthesized `toolu_0003` is not reached by any later tool_use id. -/
theorem rowC_ids :
    toolUseIds (convertAux 0 [tcTurn, trTurn, trTurn, tcTurn]) =
      ["toolu_0001", "toolu_0002"] ∧
    resultIds (convertAux 0 [tcTurn, trTurn, trTurn, tcTurn]) =
      ["toolu_0001", "toolu_0003"] := by
  have hrow : ([tcTurn, trTurn, trTurn, tcTurn] : List Turn) =
      tcTurn :: ([] ++ ([trTurn, trTurn] ++ [tcTurn])) := rfl
  rw [hrow, convertAux_group 0 tcTurn [] [trTurn, trTurn] [tcTurn]
    (by decide) (by intro m hm; simp at hm) (by decide)
    (by intro m hm; simp at hm; subst hm; decide)
    (by intro h; simp at h)]
  have hrow2 : ([tcTurn] : List Turn) = tcTurn :: ([] ++ ([] ++ [])) := rfl
  rw [if_neg (by decide), hrow2, convertAux_group _ tcTurn [] [] []
    (by decide) (by intro m hm; simp at hm) (by intro m hm; simp at hm)
    (by intro m hm; simp at hm) (by intro h m hm; simp at hm)]
  rw [if_pos (by decide), convertAux_nil]
  constructor
  · rw [toolUseIds_cons, toolUseIds_cons, toolUseIds_cons, toolUseIds_nil,
      msgBlocks_blocks, msgBlocks_blocks, msgBlocks_blocks,
      blocksToolUseIds_mkToolResults, blocksToolUseIds_mkToolUses,
      blocksToolUseIds_mkToolUses]
    simp only [List.length_cons, List.length_nil]
    norm_num [List.range_succ, toolId_eval_1, toolId_eval_2]
  · rw [resultIds_cons, resultIds_cons, resultIds_cons, resultIds_nil,
      msgBlocks_blocks, msgBlocks_blocks, msgBlocks_blocks,
      blocksResultIds_mkToolUses, blocksResultIds_mkToolUses,
      blocksResultIds_mkToolResults]
    simp only [List.length_cons, List.length_nil]
    norm_num [List.range_succ, toolId_eval_1, toolId_eval_3]

/-- Digit characters satisfy the expected code-point arithmetic. -/
theorem digit_toNat : ∀ d < 10, (Char.ofNat (48 + d)).toNat = 48 + d := by
  decide

/-- The numeric value read back from a digit-character list. -/
def charsVal (l : List Char) : Nat :=
  l.foldl (fun a ch => a * 10 + (ch.toNat - 48)) 0

theorem natDigits_foldl : ∀ (n : Nat) (acc : Nat),
    List.foldl (fun a ch => a * 10 + (ch.toNat - 48)) acc (natDigits n) =
      acc * 10 ^ (natDigits n).length + n := by
  intro n
  induction n using natDigits.induct with
  | case1 n h =>
    intro acc
    rw [natDigits, dif_pos h]
    simp only [List.foldl_cons, List.foldl_nil, List.length_cons,
      List.length_nil]
    rw [digit_toNat n h]
    ring_nf
    omega
  | case2 n h ih =>
    intro acc
    rw [natDigits, dif_neg h]
    rw [List.foldl_append, List.length_append]
    rw [ih]
    simp only [List.foldl_cons, List.foldl_nil, List.length_cons,
      List.length_nil]
    rw [digit_toNat (n % 10) (Nat.mod_lt n (by omega))]
    have hmod := Nat.div_add_mod n 10
    have hpow : 10 ^ ((natDigits (n / 10)).length + (0 + 1)) =
        10 ^ (natDigits (n / 10)).length * 10 := by
      rw [Nat.zero_add, Nat.pow_succ]
    rw [hpow]
    ring_nf
    omega

theorem charsVal_natDigits (n : Nat) : charsVal (natDigits n) = n := by
  unfold charsVal
  rw [natDigits_foldl n 0]
  omega

theorem charsVal_replicate_append (z : Nat) (l : List Char) :
    charsVal (List.replicate z '0' ++ l) =
      List.foldl (fun a ch => a * 10 + (ch.toNat - 48)) 0 l := by
  unfold charsVal
  rw [List.foldl_append]
  have hz : List.foldl (fun a ch => a * 10 + (ch.toNat - 48)) 0
      (List.replicate z '0') = 0 := by
    induction z with
    | zero => rfl
    | succ z ih =>
      rw [List.replicate_succ, List.foldl_cons]
      simpa using ih
  rw [hz]

/-- Function `pad4` keeps the numeric value recoverable, so it is injective. -/
theorem pad4_injective (a b : Nat) (h : pad4 a = pad4 b) : a = b := by
  unfold pad4 at h
  have hl : List.replicate (4 - (natDigits a).length) '0' ++ natDigits a =
      List.replicate (4 - (natDigits b).length) '0' ++ natDigits b := by
    have := congrArg String.data h
    simpa using this
  have hv := congrArg charsVal hl
  rw [charsVal_replicate_append, charsVal_replicate_append] at hv
  have ha : List.foldl (fun a ch => a * 10 + (ch.toNat - 48)) 0 (natDigits a) = a := by
    rw [natDigits_foldl a 0]; omega
  have hb : List.foldl (fun a ch => a * 10 + (ch.toNat - 48)) 0 (natDigits b) = b := by
    rw [natDigits_foldl b 0]; omega
  rw [ha, hb] at hv
  exact hv

/-- Function `toolId` is injective: distinct counter values give distinct ids. -/
theorem toolId_injective (a b : Nat) (h : toolId a = toolId b) : a = b := by
  unfold toolId at h
  have hd := congrArg String.data h
  rw [String.data_append, String.data_append] at hd
  have hp : (pad4 a).data = (pad4 b).data := List.append_cancel_left hd
  exact pad4_injective a b (by
    have : String.mk (pad4 a).data = String.mk (pad4 b).data := by rw [hp]
    simpa using this)

theorem natDigits_length_le : ∀ (k n : Nat), n < 10 ^ k → 1 ≤ k →
    (natDigits n).length ≤ k := by
  intro k n
  induction n using natDigits.induct generalizing k with
  | case1 n h =>
    intro _ hk
    rw [natDigits, dif_pos h]
    simpa using hk
  | case2 n h ih =>
    intro hn hk
    rw [natDigits, dif_neg h]
    rw [List.length_append]
    simp only [List.length_cons, List.length_nil]
    have hk2 : 2 ≤ k := by
      by_contra hc
      have hk1 : k = 1 := by omega
      subst hk1
      simp at hn
      omega
    have hdiv : n / 10 < 10 ^ (k - 1) := by
      rw [Nat.div_lt_iff_lt_mul (by omega)]
      have : 10 ^ (k - 1) * 10 = 10 ^ k := by
        rw [← Nat.pow_succ]
        congr 1
        omega
      omega
    have := ih (k - 1) hdiv (by omega)
    omega

/-- For counter values up to 9999 the padded digits are exactly 4 long. -/
theorem pad4_length (n : Nat) (h : n ≤ 9999) : (pad4 n).length = 4 := by
  unfold pad4
  rw [String.length_mk, List.length_append, List.length_replicate]
  have h1 : (natDigits n).length ≤ 4 :=
    natDigits_length_le 4 n (by omega) (by omega)
  omega

/-- C8: a maximal run of consecutive tool_call turns that is not immediately
followed by any tool_response turn emits the assistant message carrying the
tool_use blocks and no user message of tool_result blocks for that group;
scanning continues directly with the remainder. -/
theorem C8_orphan_group (c : Nat) (mc : Turn) (ctail rest : List Turn)
    (hmc : mc.role = "tool_call")
    (hct : ∀ m ∈ ctail, m.role = "tool_call")
    (hrest : ∀ m, rest.head? = some m →
      m.role ≠ "tool_call" ∧ m.role ≠ "tool_response") :
    convertAux c (mc :: (ctail ++ rest)) =
      { role := "assistant",
        content := OutContent.blocks (mkToolUses c (mc :: ctail)) } ::
        convertAux (c + (mc :: ctail).length) rest := by
  have h := convertAux_group c mc ctail [] rest hmc hct (by simp)
    (fun m hm => (hrest m hm).2) (fun _ m hm => (hrest m hm).1)
  simpa using h

/-- C8 witness: one orphaned group of two tool_call turns followed by a user
turn yields exactly the assistant tool_use message and then the converted
remainder, with no tool_result message in between. -/
theorem C8_witness :
    convertAux 0 (tcTurn :: ([tcTurn] ++ [usTurn])) =
      { role := "assistant",
        content := OutContent.blocks (mkToolUses 0 (tcTurn :: [tcTurn])) } ::
        convertAux (0 + (tcTurn :: [tcTurn]).length) [usTurn] :=
  C8_orphan_group 0 tcTurn [tcTurn] [usTurn] (by decide) (by decide)
    (by intro m hm; simp at hm; subst hm; decide)

/-- C1 (amended): for a run of N consecutive tool_call turns followed by a
non-empty run of M consecutive tool_response turns, one assistant message of
N tool_use blocks and one user message of M tool_result blocks are emitted;
result block r pairs positionally with tool_use id `toolId (c+r+1)` when
r < N, and each surplus result receives the freshly synthesized id
`toolId (c + N + r + 1)` (counter after the calls, plus response index,
plus one) — for 2 calls and 3 responses starting from counter 0 this gives
toolu_0001, toolu_0002 and toolu_0005, not toolu_0004. -/
theorem C1_amended (c : Nat) (mc : Turn) (ctail resps rest : List Turn)
    (hmc : mc.role = "tool_call")
    (hct : ∀ m ∈ ctail, m.role = "tool_call")
    (hresps : ∀ m ∈ resps, m.role = "tool_response")
    (hne : resps ≠ [])
    (hrest_tr : ∀ m, rest.head? = some m → m.role ≠ "tool_response") :
    convertAux c (mc :: (ctail ++ (resps ++ rest))) =
      { role := "assistant",
        content := OutContent.blocks (mkToolUses c (mc :: ctail)) } ::
      { role := "user",
        content := OutContent.blocks (mkToolResults (c + (mc :: ctail).length)
          (mkToolUses c (mc :: ctail)) resps) } ::
      convertAux (c + (mc :: ctail).length) rest
    ∧ blocksResultIds (mkToolResults (c + (mc :: ctail).length)
        (mkToolUses c (mc :: ctail)) resps) =
      (List.range resps.length).map (fun r =>
        if r < (mc :: ctail).length then toolId (c + r + 1)
        else toolId (c + (mc :: ctail).length + r + 1)) := by
  constructor
  · have h := convertAux_group c mc ctail resps rest hmc hct hresps hrest_tr
      (fun he => absurd he hne)
    rw [h, if_neg (by simpa [List.isEmpty_eq_true] using hne)]
  · exact blocksResultIds_mkToolResults c (c + (mc :: ctail).length)
      (mc :: ctail) resps

/-- C1 witness: the worked example, 2 calls then 3 responses from counter 0. -/
theorem C1_amended_witness :
    convertAux 0 (tcTurn :: ([tcTurn] ++ ([trTurn, trTurn, trTurn] ++ []))) =
      { role := "assistant",
        content := OutContent.blocks (mkToolUses 0 (tcTurn :: [tcTurn])) } ::
      { role := "user",
        content := OutContent.blocks (mkToolResults (0 + (tcTurn :: [tcTurn]).length)
          (mkToolUses 0 (tcTurn :: [tcTurn])) [trTurn, trTurn, trTurn]) } ::
      convertAux (0 + (tcTurn :: [tcTurn]).length) []
    ∧ blocksResultIds (mkToolResults (0 + (tcTurn :: [tcTurn]).length)
        (mkToolUses 0 (tcTurn :: [tcTurn])) [trTurn, trTurn, trTurn]) =
      (List.range ([trTurn, trTurn, trTurn] : List Turn).length).map (fun r =>
        if r < (tcTurn :: [tcTurn]).length then toolId (0 + r + 1)
        else toolId (0 + (tcTurn :: [tcTurn]).length + r + 1)) :=
  C1_amended 0 tcTurn [tcTurn] [trTurn, trTurn, trTurn] [] (by decide)
    (by decide) (by decide) (by simp) (by intro m hm; simp at hm)

/-- C1 counterexample: on 2 tool_call turns followed by 3 tool_response
turns, the three tool_result blocks receive toolu_0001, toolu_0002 and
toolu_0005; no block receives toolu_0004 as the claim states. -/
theorem C1_counterexample :
    resultIds (convertAux 0 [tcTurn, tcTurn, trTurn, trTurn, trTurn]) =
      ["toolu_0001", "toolu_0002", "toolu_0005"] ∧
    "toolu_0004" ∉
      resultIds (convertAux 0 [tcTurn, tcTurn, trTurn, trTurn, trTurn]) := by
  refine ⟨rowA_resultIds, ?_⟩
  rw [rowA_resultIds]
  decide

/-- C4: a row containing only user and assistant turns converts to the same
sequence: same length and order, same role and content per turn. -/
theorem C4_passthrough (msgs : List Turn)
    (h : ∀ m ∈ msgs, m.role = "user" ∨ m.role = "assistant") :
    convert_messages (some msgs) = some (msgs.map (fun m =>
      { role := m.role, content := OutContent.plain m.content })) := by
  have haux : ∀ (ms : List Turn),
      (∀ m ∈ ms, m.role = "user" ∨ m.role = "assistant") → ∀ c,
      convertAux c ms = ms.map (fun m =>
        { role := m.role, content := OutContent.plain m.content }) := by
    intro ms
    induction ms with
    | nil =>
      intro _ c
      rw [convertAux_nil]
      rfl
    | cons m ms ih =>
      intro hall c
      have htail := fun x hx => hall x (List.mem_cons_of_mem m hx)
      rcases hall m (List.mem_cons_self m ms) with hu | ha
      · rw [convertAux, if_pos hu, ih htail c, List.map_cons, hu]
      · have hnu : m.role ≠ "user" := by rw [ha]; decide
        rw [convertAux, if_neg hnu, if_pos ha, ih htail c, List.map_cons, ha]
  show some (convertAux 0 msgs) = _
  rw [haux msgs h 0]

/-- C4 witness: a two-turn user/assistant row passes through unchanged. -/
theorem C4_witness :
    convert_messages (some [usTurn, asTurn]) = some ([usTurn, asTurn].map
      (fun m => { role := m.role, content := OutContent.plain m.content })) :=
  C4_passthrough [usTurn, asTurn] (by decide)

theorem is_english_short (detect : String → Option (String × ℚ)) (s : String)
    (minc : ℚ) (hshort : (pyStrip s).length < 10) :
    is_english detect s minc = false := by
  unfold is_english
  rw [if_pos]
  simp [hshort]

/-- C6: with the language filter enabled, a row whose first user turn has a
string text shorter than 10 characters after trimming (the no-user-turn case
gives the empty string) is language-filtered, whatever the confidence
threshold and whatever the classifier would answer. -/
theorem C6_short_text_filtered (mtc : Option Nat)
    (detect : String → Option (String × ℚ)) (minc : ℚ) (row : Row)
    (msgs : List Turn) (s : String) (p : TCContent)
    (hparse : row.messagesParse = some msgs)
    (hfu : firstUserContent msgs = Content.str s p)
    (hshort : (pyStrip s).length < 10)
    (htcf : toolCallFilterRejects
      { max_tool_calls := mtc, no_lang_filter := false,
        lang_confidence := minc, detect := detect } row = false) :
    process_row
      { max_tool_calls := mtc, no_lang_filter := false,
        lang_confidence := minc, detect := detect } row =
      RowOutcome.filteredLang := by
  unfold process_row
  rw [htcf]
  simp only [Bool.false_eq_true, if_false, if_neg (by simp : ¬(false = true))]
  rw [hparse]
  simp only [hfu, isEnglishContent, is_english_short detect s minc hshort]

/-- A user turn whose text is shorter than 10 characters. -/
def shortUsTurn : Turn :=
  { role := "user", content := Content.str "hi" TCContent.unparsable }

/-- C6 witness: a concrete row whose first user text is `hi` is
language-filtered at threshold 0 with a classifier that never answers. -/
theorem C6_witness :
    process_row
      { max_tool_calls := none, no_lang_filter := false,
        lang_confidence := 0, detect := fun _ => none }
      { messagesRaw := "x", messagesParse := some [shortUsTurn],
        toolsParse := some [] } = RowOutcome.filteredLang :=
  C6_short_text_filtered none (fun _ => none) 0
    { messagesRaw := "x", messagesParse := some [shortUsTurn],
      toolsParse := some [] }
    [shortUsTurn] "hi" TCContent.unparsable rfl rfl (by decide) rfl

theorem process_row_filteredToolCalls_iff (cfg : Config) (row : Row) :
    process_row cfg row = RowOutcome.filteredToolCalls ↔
      toolCallFilterRejects cfg row = true := by
  constructor
  · intro hp
    unfold process_row afterFilters at hp
    split at hp
    · assumption
    · exfalso
      repeat' split at hp
      all_goals simp_all
  · intro hr
    unfold process_row
    rw [if_pos hr]

/-- C7: with a maximum M configured, the tool-call filter counts the role
marker substring in the raw messages text (without parsing) and rejects the
row exactly when the count strictly exceeds M; on rejection only the
processed and tool-call-filter counters advance, no output line is written
and nothing further happens to the row. -/
theorem C7_tool_call_filter (cfg : Config) (row : Row) (st : LoopState)
    (m : Nat) (hm : cfg.max_tool_calls = some m) :
    (process_row cfg row = RowOutcome.filteredToolCalls ↔
      m < count_tool_calls row.messagesRaw)
    ∧ (m < count_tool_calls row.messagesRaw →
        step_row cfg st row =
          some { st with
                 processed := st.processed + 1,
                 filtered_tool_calls := st.filtered_tool_calls + 1 }) := by
  have hr : toolCallFilterRejects cfg row =
      decide (m < count_tool_calls row.messagesRaw) := by
    unfold toolCallFilterRejects
    rw [hm]
  constructor
  · rw [process_row_filteredToolCalls_iff, hr]
    simp
  · intro hlt
    unfold step_row
    have hp : process_row cfg row = RowOutcome.filteredToolCalls := by
      rw [process_row_filteredToolCalls_iff, hr]
      simpa using hlt
    rw [hp]

theorem count_tool_calls_ex :
    count_tool_calls "[\x7b\"role\": \"tool_call\"\x7d]" = 1 := by
  simp [count_tool_calls, countOccsAux, toolCallMarkerTail]

/-- A configuration with the tool-call and language filters both off except
for a maximum of 0 tool calls. -/
def cfgMax0 : Config :=
  { max_tool_calls := some 0, no_lang_filter := true,
    lang_confidence := 0, detect := fun _ => none }

/-- A row whose raw messages text contains the role marker once. -/
def rowOneCall : Row :=
  { messagesRaw := "[\x7b\"role\": \"tool_call\"\x7d]",
    messagesParse := some [], toolsParse := some [] }

/-- C7 witness: with a maximum of 0, a raw text containing one tool_call
marker is rejected and only the processed and tool-call-filter counters
move. -/
theorem C7_witness :
    (process_row cfgMax0 rowOneCall = RowOutcome.filteredToolCalls ↔
      0 < count_tool_calls rowOneCall.messagesRaw)
    ∧ (0 < count_tool_calls rowOneCall.messagesRaw →
        step_row cfgMax0 initState rowOneCall =
          some { initState with
                 processed := initState.processed + 1,
                 filtered_tool_calls := initState.filtered_tool_calls + 1 }) :=
  C7_tool_call_filter cfgMax0 rowOneCall initState 0 rfl

/-- A configuration with the language filter enabled and no tool-call cap. -/
def cfgLang : Config :=
  { max_tool_calls := none, no_lang_filter := false,
    lang_confidence := 0, detect := fun _ => none }

/-- A row whose messages column is malformed JSON. -/
def rowBadMessages : Row :=
  { messagesRaw := "not json", messagesParse := none, toolsParse := some [] }

/-- C2 counterexample: with the language filter enabled (the default), a row
whose messages column is malformed JSON is counted as language-filtered, not
as an error: the error counter stays 0 while the language counter becomes 1
(no output line is written and the loop goes on, but the claimed error-count
increment does not happen). -/
theorem C2_counterexample :
    rowBadMessages.messagesParse = none ∧
    step_row cfgLang initState rowBadMessages = some
      { count := 0, errors := 0, filtered_lang := 1,
        filtered_tool_calls := 0, processed := 1, output := [] } :=
  ⟨rfl, rfl⟩

/-- C2 (amended): a malformed messages or tools column never aborts the run
and never writes an output line; the error counter increments whenever the
row reaches the conversion step (always when the language filter is
disabled; for a malformed tools column also when the filter accepts the
row), but a malformed messages column with the language filter enabled is
counted as language-filtered instead. -/
theorem C2_amended (cfg : Config) (st : LoopState) (row : Row)
    (hmal : row.messagesParse = none ∨ row.toolsParse = none)
    (htcf : toolCallFilterRejects cfg row = false) :
    (cfg.no_lang_filter = true →
      step_row cfg st row =
        some { st with processed := st.processed + 1, errors := st.errors + 1 })
    ∧ (cfg.no_lang_filter = false → row.messagesParse = none →
      step_row cfg st row =
        some { st with
               processed := st.processed + 1,
               filtered_lang := st.filtered_lang + 1 })
    ∧ (∀ msgs, cfg.no_lang_filter = false → row.messagesParse = some msgs →
      isEnglishContent cfg.detect (firstUserContent msgs)
        cfg.lang_confidence = some true →
      row.toolsParse = none →
      step_row cfg st row =
        some { st with processed := st.processed + 1, errors := st.errors + 1 }) := by
  have hcr : convert_row row.messagesParse row.toolsParse = none := by
    rcases hmal with h | h
    · simp [convert_row, convert_messages, h]
    · cases hm : row.messagesParse with
      | none => simp [convert_row, convert_messages, hm]
      | some msgs => simp [convert_row, convert_messages, convert_tools, h]
  refine ⟨?_, ?_, ?_⟩
  · intro hnl
    unfold step_row
    have hp : process_row cfg row = RowOutcome.errored := by
      unfold process_row afterFilters
      rw [htcf, hcr]
      simp [hnl]
    rw [hp]
  · intro hnl hmp
    unfold step_row
    have hp : process_row cfg row = RowOutcome.filteredLang := by
      unfold process_row
      rw [htcf, hnl, hmp]
      simp
    rw [hp]
  · intro msgs hnl hmp hlang htools
    unfold step_row
    have hcr2 : convert_row (some msgs) row.toolsParse = none := by
      rw [← hmp]
      exact hcr
    have hp : process_row cfg row = RowOutcome.errored := by
      unfold process_row afterFilters
      rw [htcf, hnl, hmp]
      simp [hlang, hcr2]
    rw [hp]

/-- A configuration with the language filter disabled. -/
def cfgNoLang : Config :=
  { max_tool_calls := none, no_lang_filter := true,
    lang_confidence := 0, detect := fun _ => none }

/-- C2 witness: with the language filter disabled, a malformed messages
column makes the step error-count the row, write nothing, and return a
successor state (so the loop continues). -/
theorem C2_amended_witness :
    (cfgNoLang.no_lang_filter = true →
      step_row cfgNoLang initState rowBadMessages =
        some { initState with
               processed := initState.processed + 1,
               errors := initState.errors + 1 })
    ∧ (cfgNoLang.no_lang_filter = false →
        rowBadMessages.messagesParse = none →
      step_row cfgNoLang initState rowBadMessages =
        some { initState with
               processed := initState.processed + 1,
               filtered_lang := initState.filtered_lang + 1 })
    ∧ (∀ msgs, cfgNoLang.no_lang_filter = false →
        rowBadMessages.messagesParse = some msgs →
      isEnglishContent cfgNoLang.detect (firstUserContent msgs)
        cfgNoLang.lang_confidence = some true →
      rowBadMessages.toolsParse = none →
      step_row cfgNoLang initState rowBadMessages =
        some { initState with
               processed := initState.processed + 1,
               errors := initState.errors + 1 }) :=
  C2_amended cfgNoLang initState rowBadMessages (Or.inl rfl) rfl

theorem mkToolUses_cons_head (c : Nat) (m : Turn) (ms : List Turn) :
    ∃ bs, mkToolUses c (m :: ms) =
      Block.tool_use (toolId (c + 1))
        (parseToolCallContent m.content).name
        (parseToolCallContent m.content).input :: bs := by
  refine ⟨(List.enumFrom 1 ms).map (fun km =>
    let p := parseToolCallContent km.2.content
    Block.tool_use (toolId (c + km.1 + 1)) p.name p.input), ?_⟩
  unfold mkToolUses
  rw [List.enum_cons, List.map_cons]
  rfl

/-- C9: a tool_call turn whose content string cannot be parsed at all gets
the fallback name `unknown` with an empty input instead of raising: the
fallback is exactly that record, the assistant message opens with a
tool_use block named `unknown`, and a row whose two columns parse (with the
tool declarations converting) is never counted as an error, whatever its
turn contents. -/
theorem C9_unparsable_fallback :
    parse_tool_call TCContent.unparsable =
      { name := "unknown", input := emptyObj }
    ∧ (∀ (c : Nat) (raw : String) (rest : List Turn), ∃ bs tail,
        convertAux c
          (Turn.mk "tool_call" (Content.str raw TCContent.unparsable) :: rest) =
          OutMsg.mk "assistant" (OutContent.blocks
            (Block.tool_use (toolId (c + 1)) "unknown" emptyObj :: bs)) ::
            tail)
    ∧ (∀ (cfg : Config) (row : Row) (msgs : List Turn) (ts : List Json)
        (specs : List ToolSpec),
        row.messagesParse = some msgs → row.toolsParse = some ts →
        convert_tools (some ts) = Except.ok specs →
        process_row cfg row ≠ RowOutcome.errored) := by
  refine ⟨rfl, ?_, ?_⟩
  · intro c raw rest
    have h1 : (Turn.mk "tool_call" (Content.str raw TCContent.unparsable)).role =
        "tool_call" := rfl
    rw [convertAux_tool_call_eq c
      (Turn.mk "tool_call" (Content.str raw TCContent.unparsable)) rest
      (by rw [h1]; decide) (by rw [h1]; decide) h1]
    obtain ⟨bs, hbs⟩ := mkToolUses_cons_head c
      (Turn.mk "tool_call" (Content.str raw TCContent.unparsable))
      (spanRole "tool_call" rest).1
    rw [hbs]
    exact ⟨bs, _, rfl⟩
  · intro cfg row msgs ts specs hmp htp hct
    have hcr : convert_row row.messagesParse row.toolsParse = some
        { model := "rwkv", messages := convertAux 0 msgs,
          tools := if specs.isEmpty then none else some specs,
          max_tokens := 4096 } := by
      rw [hmp, htp]
      simp [convert_row, convert_messages, hct]
    unfold process_row afterFilters
    split
    · simp
    · split
      · rw [hcr]
        simp
      · rw [hmp]
        simp only []
        cases isEnglishContent cfg.detect (firstUserContent msgs)
            cfg.lang_confidence with
        | none => simp
        | some b =>
          cases b
          · simp
          · rw [hmp] at hcr
            simp [hcr]

/-- A tool_call turn whose content string does not parse at all. -/
def tcBadTurn : Turn :=
  { role := "tool_call", content := Content.str "garbage" TCContent.unparsable }

/-- C9 witness: a concrete row whose only turn is an unparsable tool_call is
emitted (here with the language filter disabled), not errored. -/
theorem C9_witness :
    process_row cfgNoLang
      { messagesRaw := "x", messagesParse := some [tcBadTurn],
        toolsParse := some [] } ≠ RowOutcome.errored :=
  C9_unparsable_fallback.2.2 cfgNoLang
    { messagesRaw := "x", messagesParse := some [tcBadTurn],
      toolsParse := some [] }
    [tcBadTurn] [] [] rfl rfl rfl

/-- Modelled from the spec: the view of one tool declaration stated by the
contract of the Tool Declaration Transformer — keep only entries tagged as
callable functions; map each to a Tool-Spec using the function name
(required), description (default empty), and parameter schema (default
empty-object schema); everything else is excluded. -/
def toolSpecView (tool : Json) : Option ToolSpec :=
  match tool with
  | Json.obj _ =>
    match dictGet tool "type" with
    | some (Json.str tag) =>
      if tag = "function" then
        match dictGet tool "function" with
        | some func =>
          match dictGet func "name" with
          | some nm =>
            some { name := nm
                   description := (dictGet func "description").getD (Json.str "")
                   input_schema := (dictGet func "parameters").getD defaultSchema }
          | none => none
        | none => none
      else none
    | _ => none
  | _ => none

theorem convertTool_toolSpecView (tool : Json) :
    ∀ os, convertTool tool = Except.ok os → toolSpecView tool = os := by
  intro os h
  unfold convertTool at h
  unfold toolSpecView
  split at h
  · split at h <;> try simp_all
    · split at h <;> try simp_all
      · split at h <;> try simp_all
        · split at h <;> simp_all
  · simp_all

theorem convertToolsList_view (ts : List Json) :
    ∀ specs, convertToolsList ts = Except.ok specs →
      specs = ts.filterMap toolSpecView := by
  induction ts with
  | nil =>
    intro specs h
    simp [convertToolsList] at h
    simp [h]
  | cons tool rest ih =>
    intro specs h
    unfold convertToolsList at h
    cases hct : convertTool tool with
    | error e => rw [hct] at h; simp at h
    | ok os =>
      rw [hct] at h
      have hv := convertTool_toolSpecView tool os hct
      cases os with
      | none =>
        rw [List.filterMap_cons, hv]
        exact ih specs h
      | some spec =>
        cases hrest : convertToolsList rest with
        | error e => rw [hrest] at h; simp at h
        | ok specs2 =>
          rw [hrest] at h
          simp only [Except.ok.injEq] at h
          rw [List.filterMap_cons, hv, ← h]
          simp [ih specs2 hrest]

/-- C5: when the tools column converts without error, the output list is
exactly the in-order image of the function-tagged declarations under the
mapping of the spec (non-function entries excluded, description and schema
defaulted); and when that list is empty the serialized record carries no
`tools` key at all. -/
theorem C5_tools (ts : List Json) (specs : List ToolSpec) (msgs : List Turn)
    (hconv : convert_tools (some ts) = Except.ok specs) :
    specs = ts.filterMap toolSpecView
    ∧ (specs = [] → ∀ r, convert_row (some msgs) (some ts) = some r →
        "tools" ∉ serializedKeys r) := by
  have hlist : convertToolsList ts = Except.ok specs := hconv
  constructor
  · exact convertToolsList_view ts specs hlist
  · intro hnil r hr
    have hr2 : r =
        { model := "rwkv", messages := convertAux 0 msgs,
          tools := none, max_tokens := 4096 } := by
      unfold convert_row convert_messages at hr
      rw [show convert_tools (some ts) = Except.ok [] from hnil ▸ hconv] at hr
      simpa using hr.symm
    rw [hr2]
    simp [serializedKeys]

/-- A declaration that is not function-tagged. -/
def toolOther : Json := Json.obj [("type", Json.str "retrieval")]

/-- C5 witness: a tools list holding only a non-function declaration
converts to the empty list, and the serialized record of a row with that
tools column has no `tools` key. -/
theorem C5_witness :
    ([] : List ToolSpec) = [toolOther].filterMap toolSpecView
    ∧ (([] : List ToolSpec) = [] →
        ∀ r, convert_row (some [usTurn]) (some [toolOther]) = some r →
          "tools" ∉ serializedKeys r) :=
  C5_tools [toolOther] [] [usTurn] rfl

/-- C3 counterexample: in the row tool_call, tool_response, tool_response,
tool_call, tool_call the identifier toolu_0003 is assigned both as the
tool_use_id of the surplus tool_result and as the id of a later tool_use
block, so the identifiers of the row are not unique once tool_result ids are
included, contrary to the claim. -/
theorem C3_counterexample :
    toolUseIds (convertAux 0 [tcTurn, trTurn, trTurn, tcTurn, tcTurn]) =
      ["toolu_0001", "toolu_0002", "toolu_0003"] ∧
    resultIds (convertAux 0 [tcTurn, trTurn, trTurn, tcTurn, tcTurn]) =
      ["toolu_0001", "toolu_0003"] ∧
    "toolu_0003" ∈
      toolUseIds (convertAux 0 [tcTurn, trTurn, trTurn, tcTurn, tcTurn]) ∧
    "toolu_0003" ∈
      resultIds (convertAux 0 [tcTurn, trTurn, trTurn, tcTurn, tcTurn]) := by
  obtain ⟨h1, h2⟩ := rowB_ids
  exact ⟨h1, h2, by rw [h1]; decide, by rw [h2]; decide⟩

/-- C3 (amended): within a row the identifiers assigned to tool_use blocks
are exactly toolu_0001, toolu_0002, ... in order of assignment (hence
strictly increasing and starting at toolu_0001), pairwise distinct among the
tool_use blocks, and of the form toolu_ followed by the 4-digit zero-padded
counter while at most 9999 tool_call turns occur; but a tool_use id can
coincide with the synthesized tool_use_id of an earlier surplus tool_result
block. -/
theorem C3_amended (msgs : List Turn) :
    toolUseIds (convertAux 0 msgs) =
      (List.range (countRole "tool_call" msgs)).map (fun k => toolId (k + 1))
    ∧ (toolUseIds (convertAux 0 msgs)).Nodup
    ∧ (0 < countRole "tool_call" msgs →
        (toolUseIds (convertAux 0 msgs)).head? = some "toolu_0001")
    ∧ (countRole "tool_call" msgs ≤ 9999 →
        ∀ i ∈ toolUseIds (convertAux 0 msgs), ∃ k, 1 ≤ k ∧ k ≤ 9999 ∧
          i = "toolu_" ++ pad4 k ∧ (pad4 k).length = 4) := by
  have h0 : toolUseIds (convertAux 0 msgs) =
      (List.range (countRole "tool_call" msgs)).map (fun k => toolId (k + 1)) := by
    have h := toolUseIds_convertAux 0 msgs
    simpa using h
  refine ⟨h0, ?_, ?_, ?_⟩
  · rw [h0]
    refine List.Nodup.map_on ?_ (List.nodup_range _)
    intro x _ y _ hxy
    have := toolId_injective (x + 1) (y + 1) hxy
    omega
  · intro hpos
    rw [h0]
    obtain ⟨n, hn⟩ : ∃ n, countRole "tool_call" msgs = n + 1 :=
      ⟨countRole "tool_call" msgs - 1, by omega⟩
    rw [hn, List.range_succ_eq_map, List.map_cons]
    simpa using toolId_eval_1
  · intro hbound i hi
    rw [h0] at hi
    simp only [List.mem_map, List.mem_range] at hi
    obtain ⟨k, hk, hik⟩ := hi
    exact ⟨k + 1, by omega, by omega, by rw [← hik]; rfl,
      pad4_length (k + 1) (by omega)⟩

/-- C3 witness: the single-call row gets exactly toolu_0001, its id list has
no duplicates, and the single id has the padded 4-digit form. -/
theorem C3_witness :
    0 < countRole "tool_call" [tcTurn] ∧
    (toolUseIds (convertAux 0 [tcTurn])).head? = some "toolu_0001" ∧
    (toolUseIds (convertAux 0 [tcTurn])).Nodup ∧
    countRole "tool_call" [tcTurn] ≤ 9999 :=
  ⟨by decide, (C3_amended [tcTurn]).2.2.1 (by decide),
    (C3_amended [tcTurn]).2.1, by decide⟩

/-- C10 counterexample: the row tool_call, tool_response, tool_response,
tool_call has a group with more responses than calls that is later followed
by another tool_call group, yet its synthesized surplus id toolu_0003 is
never assigned to any later tool_use block (the tool_use ids stop at
toolu_0002), so the claimed reuse does not happen on every such row. -/
theorem C10_counterexample :
    resultIds (convertAux 0 [tcTurn, trTurn, trTurn, tcTurn]) =
      ["toolu_0001", "toolu_0003"] ∧
    toolUseIds (convertAux 0 [tcTurn, trTurn, trTurn, tcTurn]) =
      ["toolu_0001", "toolu_0002"] ∧
    "toolu_0003" ∉
      toolUseIds (convertAux 0 [tcTurn, trTurn, trTurn, tcTurn]) := by
  obtain ⟨h1, h2⟩ := rowC_ids
  exact ⟨h2, h1, by rw [h1]; decide⟩

/-- C10 (amended): the tool-id counter advances exactly once per consumed
tool_call turn and never for a tool_response turn — starting from counter c
the tool_use ids of the row are exactly toolId (c+1), toolId (c+2), ..., one per
tool_call turn, regardless of responses; consequently the identifier
synthesized for a surplus tool_result can be assigned again to a later
tool_use block when enough tool_call turns follow, as in the row tool_call,
tool_response, tool_response, tool_call, tool_call where toolu_0003 names
both the surplus tool_result and the last tool_use block. -/
theorem C10_amended :
    (∀ (c : Nat) (msgs : List Turn), toolUseIds (convertAux c msgs) =
      (List.range (countRole "tool_call" msgs)).map
        (fun k => toolId (c + k + 1)))
    ∧ "toolu_0003" ∈
        resultIds (convertAux 0 [tcTurn, trTurn, trTurn, tcTurn, tcTurn])
    ∧ "toolu_0003" ∈
        toolUseIds (convertAux 0 [tcTurn, trTurn, trTurn, tcTurn, tcTurn]) := by
  refine ⟨toolUseIds_convertAux, ?_, ?_⟩
  · rw [rowB_ids.2]
    decide
  · rw [rowB_ids.1]
    decide
